import Mathlib

/-
  Verification development for the backsplash pattern generator and layout
  engine (src/src/model/geometry.ts together with the appended tile
  generator section of that file, and the parameter model of
  src/src/model/backsplash-model.ts).

  Numbers that the TypeScript source handles as IEEE doubles are modelled
  as rationals; all the arithmetic exercised here (sums, products,
  divisions by small constants) is exact in doubles for the ranges the
  engine uses, so the rational model is faithful on the inputs of the
  claims.  Grid indices are modelled as integers.  The seeded PRNG
  (the external seedrandom package) is modelled abstractly: a Randomizer
  is an index into an arbitrary stream of non-negative integer draws that
  is fully determined by the seed string; each call of next or nextInt
  consumes one position of the stream, which captures exactly the
  determinism and sequencing that the engine relies on.
-/

namespace Backsplash

/-- Orientation of the tiling, from the parameter model. -/
inductive Orient where
  | horizontal
  | vertical
deriving DecidableEq, Inhabited

/-- Step direction of offset stepping, from the parameter model. -/
inductive StepDir where
  | left
  | right
deriving DecidableEq, Inhabited

/-- One colour of the palette (ColourSpec in colour-model.ts). -/
structure ColourSpec where
  name : String
  hexcode : String
  code : String
  enabled : Bool
  weight : Nat
  favourite : Bool
deriving DecidableEq, Inhabited

/-- A hole region in 1-based inclusive grid coordinates (Region in
backsplash-model.ts). -/
structure Region where
  startRow : Nat
  startColumn : Nat
  endRow : Nat
  endColumn : Nat
deriving DecidableEq, Inhabited

/-- The immutable parameters record (TileParametersModel). -/
structure Model where
  seed : String
  orientation : Orient
  rowCount : Nat
  columnCount : Nat
  complexity : Nat
  aspectRatio : Int
  offset : Nat
  stepDirection : StepDir
  stepAlternate : Bool
  groupSize : Nat
  rotation : Nat
  holes : List Region
  grout : String
  colourModel : List ColourSpec
deriving DecidableEq, Inhabited

/-- A point, as in class TilePoint. -/
structure TilePoint where
  x : ℚ
  y : ℚ
deriving DecidableEq, Inhabited

/-- A rectangle, as in class TileRect. -/
structure TileRect where
  x : ℚ
  y : ℚ
  width : ℚ
  height : ℚ
deriving DecidableEq, Inhabited

/-- A size, as in class TileSize. -/
structure TileSize where
  width : ℚ
  height : ℚ
deriving DecidableEq, Inhabited

namespace TileRect

def left (r : TileRect) : ℚ := r.x

def top (r : TileRect) : ℚ := r.y

def right (r : TileRect) : ℚ := r.x + r.width

def bottom (r : TileRect) : ℚ := r.y + r.height

def leftMiddle (r : TileRect) : TilePoint := ⟨r.left, r.top + r.height / 2⟩

def topMiddle (r : TileRect) : TilePoint := ⟨r.left + r.width / 2, r.top⟩

def rightMiddle (r : TileRect) : TilePoint := ⟨r.right, r.top + r.height / 2⟩

def bottomMiddle (r : TileRect) : TilePoint := ⟨r.left + r.width / 2, r.bottom⟩

/-- Containment test of the source, inclusive on all four edges. -/
def contains (r : TileRect) (p : TilePoint) : Prop :=
  p.x ≥ r.left ∧ p.x ≤ r.right ∧ p.y ≥ r.top ∧ p.y ≤ r.bottom

instance (r : TileRect) (p : TilePoint) : Decidable (r.contains p) := by
  unfold contains; infer_instance

/-- Union of two rectangles, as in TileRect.union. -/
def union (r other : TileRect) : TileRect :=
  let l := min r.left other.left
  let t := min r.top other.top
  let rt := max r.right other.right
  let b := max r.bottom other.bottom
  ⟨l, t, rt - l, b - t⟩

/-- Intersection used for hole subtraction, as in TileRect.intersect: an
edge-trim rule that pulls an edge inward only when the other rectangle
contains the three midpoints that guarantee a clean axis-aligned trim.
The branch returning the receiver unchanged models the reference-identity
return of the source. -/
def intersect (r other : TileRect) : Option TileRect :=
  let l :=
    if other.contains r.leftMiddle ∧ other.contains r.topMiddle ∧
        other.contains r.bottomMiddle then
      max r.left other.right
    else r.left
  let t :=
    if other.contains r.topMiddle ∧ other.contains r.leftMiddle ∧
        other.contains r.rightMiddle then
      max r.top other.bottom
    else r.top
  let rt :=
    if other.contains r.rightMiddle ∧ other.contains r.topMiddle ∧
        other.contains r.bottomMiddle then
      min r.right other.left
    else r.right
  let b :=
    if other.contains r.bottomMiddle ∧ other.contains r.leftMiddle ∧
        other.contains r.rightMiddle then
      min r.bottom other.top
    else r.bottom
  if l ≥ rt ∨ t ≥ b then none
  else if l = r.left ∧ t = r.top ∧ rt = r.right ∧ b = r.bottom then some r
  else some ⟨l, t, rt - l, b - t⟩

end TileRect

/-- Grout line thickness in pixels, fixed in the source. -/
def groutPx : ℚ := 2

/-- Basis pixel size: 16 times magnification over 100. -/
def basisPx (magnification : ℚ) : ℚ := 16 * magnification / 100

/-- Pixel size of a block of rows by columns cells, as in measure. -/
def measure (bf mag : ℚ) (m : Model) (rows columns : ℚ) (inside : Bool) : TileSize :=
  let groutX := (columns + (if inside then -1 else 1)) * groutPx
  let groutY := (rows + (if inside then -1 else 1)) * groutPx
  ⟨(if m.aspectRatio < 0 then columns * basisPx mag
      else columns * basisPx mag * (m.aspectRatio : ℚ) * bf) + groutX,
   (if m.aspectRatio > 0 then rows * basisPx mag
      else -(rows) * basisPx mag * (m.aspectRatio : ℚ) * bf) + groutY⟩

/-- Size of one interior cell. -/
def cellSize (bf mag : ℚ) (m : Model) : TileSize := measure bf mag m 1 1 true

/-- Base rectangle of one grid cell together with the offset-step
transform and the origin clip, as in locateCell.  Grid coordinates are
1-based.  The modulo on the step index follows the mathematical
convention of Int.emod, which agrees with the JavaScript remainder on the
non-negative indices produced by valid 1-based grid coordinates. -/
def locateCell (bf mag : ℚ) (m : Model) (row column : ℤ) (inside : Bool) : TileRect :=
  let cs := cellSize bf mag m
  let width := cs.width + (if inside then 0 else 2 * groutPx)
  let height := cs.height + (if inside then 0 else 2 * groutPx)
  let x := ((column : ℚ) - 1) * cs.width +
    (if inside then (column : ℚ) else (column : ℚ) - 1) * groutPx
  let y := ((row : ℚ) - 1) * cs.height +
    (if inside then (row : ℚ) else (row : ℚ) - 1) * groutPx
  if 1 < m.offset then
    let amount : ℚ :=
      if m.orientation = Orient.vertical then
        (if 0 < m.aspectRatio then 1 else -(m.aspectRatio : ℚ) * bf)
      else
        (if 0 < m.aspectRatio then (m.aspectRatio : ℚ) * bf else 1)
    let index : ℤ := if m.orientation = Orient.vertical then column - 1 else row - 1
    let direction : ℚ :=
      if m.stepDirection = StepDir.right ∨ m.offset ≤ 2 then -1 else 1
    let shift : ℚ :=
      if m.stepAlternate ∨ m.offset ≤ 2 then
        if index % 2 = 1 then direction * basisPx mag * amount / (m.offset : ℚ) else 0
      else
        let modularOffset : ℤ :=
          index % (m.offset : ℤ) -
            (if m.stepDirection = StepDir.right then 0 else (m.offset : ℤ) - 1)
        direction * basisPx mag * amount * (modularOffset : ℚ) / (m.offset : ℚ)
    if m.orientation = Orient.horizontal then
      let xs := x + shift
      if xs < groutPx then
        ⟨if inside then groutPx else 0, y,
         width - (if inside then groutPx - xs else -xs), height⟩
      else ⟨xs, y, width, height⟩
    else
      let ys := y + shift
      if ys < groutPx then
        ⟨x, if inside then groutPx else 0, width,
         height - (if inside then groutPx - ys else -ys)⟩
      else ⟨x, ys, width, height⟩
  else ⟨x, y, width, height⟩

/-- Locator for a tile or an area: the union of the two corner cells, as
in locate. -/
def locate (bf mag : ℚ) (m : Model) (row column toRow toColumn : ℤ)
    (inside : Bool) : TileRect :=
  (locateCell bf mag m row column inside).union (locateCell bf mag m toRow toColumn inside)

/-- Located rectangle of a hole region, as in locateHole (the memoization
of the source is semantically the identity). -/
def locateHole (bf mag : ℚ) (m : Model) (hole : Region) : TileRect :=
  locate bf mag m hole.startRow hole.startColumn hole.endRow hole.endColumn true

/-- A generated tile. -/
structure Tile where
  key : Nat
  row : Nat
  colour : String
deriving DecidableEq, Inhabited

/-- A generated row of tiles. -/
structure TileRow where
  key : Nat
  columns : List Tile
deriving DecidableEq, Inhabited

/-- Canvas-edge crop rectangles, as computed by the anonymous function of
layout: none when offset is at most 1, otherwise the strips trimmed from
the ragged edge.  The source indexes the first and last tile of a row
with a non-null assertion; the model takes a default tile there, which is
only reachable for empty generated rows that the source would fault on. -/
def canvasCrop (bf mag : ℚ) (m : Model) (rows : List TileRow) : Option (List TileRect) :=
  if 1 < m.offset then
    let fullCanvas := measure bf mag m (m.rowCount : ℚ) (m.columnCount : ℚ) false
    if m.orientation = Orient.horizontal then
      let l := (rows.map (fun row => row.columns.headI)).foldl
        (fun mx tile => max (locateCell bf mag m tile.row tile.key false).left mx) 0
      let rt := (rows.map (fun row => row.columns.getLastI)).foldl
        (fun mn tile => min (locateCell bf mag m tile.row tile.key false).right mn)
        fullCanvas.width
      some ((if 0 < l then [⟨0, 0, l, fullCanvas.height⟩] else []) ++
        (if rt < fullCanvas.width then
          [⟨rt, 0, fullCanvas.width - rt, fullCanvas.height⟩] else []))
    else
      let t := (rows.headI).columns.foldl
        (fun mx tile => max (locateCell bf mag m tile.row tile.key false).top mx) 0
      let b := (rows.getLastI).columns.foldl
        (fun mn tile => min (locateCell bf mag m tile.row tile.key false).bottom mn)
        fullCanvas.height
      some ((if 0 < t then [⟨0, 0, fullCanvas.width, t⟩] else []) ++
        (if b < fullCanvas.height then
          [⟨0, b, fullCanvas.width, fullCanvas.height - b⟩] else []))
  else none

/-- Subtraction of canvas crops and holes from a tile rectangle, as in
intersectWithHoles.  The hole loop reproduces the source forEach exactly:
when an intersection comes back null the callback returns early without
assigning, so the accumulated rectangle is kept unchanged. -/
def intersectWithHoles (bf mag : ℚ) (m : Model) (rows : List TileRow)
    (tile : TileRect) : Option TileRect :=
  let afterCrop : Option TileRect :=
    match canvasCrop bf mag m rows with
    | none => some tile
    | some crops =>
      crops.foldl
        (fun acc crop =>
          match acc with
          | some t => t.intersect crop
          | none => none)
        (some tile)
  match afterCrop with
  | none => none
  | some t0 =>
    some (m.holes.foldl
      (fun cur hole =>
        match cur.intersect (locateHole bf mag m hole) with
        | none => cur
        | some t => t)
      t0)

/-- Abstract state of the seeded Randomizer: an arbitrary stream of
non-negative integer draws, determined by the seed, and the position of
the next draw.  Every call of next or nextInt consumes one position. -/
structure Rand where
  stream : Nat → Nat
  idx : Nat

/-- Advance the stream by one draw. -/
def Rand.advance (r : Rand) : Rand := ⟨r.stream, r.idx + 1⟩

/-- Next non-negative integer draw, as in Randomizer.nextInt. -/
def Rand.nextInt (r : Rand) : Nat × Rand := (r.stream r.idx, r.advance)

/-- Next draw as a rational in the unit interval, as in Randomizer.next. -/
def Rand.nextQ (r : Rand) : ℚ × Rand :=
  (((r.stream r.idx % 2 ^ 32 : ℕ) : ℚ) / (2 ^ 32 : ℚ), r.advance)

/-- Loop body of Randomizer.shuffle: repeatedly draw an index into the
shrinking supply and extract that element, until one element remains,
which is appended last.  The fuel argument is the initial length of the
supply; the loop of the source runs strictly fewer iterations, so the
fuel never runs out on the paths the source takes. -/
def shuffleGo {α : Type} : Nat → List α → Rand → List α → List α × Rand
  | 0, supply, r, acc => (acc ++ supply, r)
  | fuel + 1, supply, r, acc =>
    if h : 1 < supply.length then
      let d := r.stream r.idx
      let j := d % supply.length
      have hj : j < supply.length := Nat.mod_lt _ (Nat.lt_of_lt_of_le Nat.zero_lt_one h.le)
      shuffleGo fuel (supply.eraseIdx j) r.advance (acc ++ [supply.get ⟨j, hj⟩])
    else (acc ++ supply, r)

/-- Draw-without-replacement shuffle, as in Randomizer.shuffle.  Empty
input is returned unchanged without consuming a draw. -/
def shuffle {α : Type} (items : List α) (r : Rand) : List α × Rand :=
  if items.isEmpty then (items, r) else shuffleGo items.length items r []

/-- Stable insertion on ascending keys; together with sortByKey this
models the stable ascending sort of lodash sortBy. -/
def insertByKey {α : Type} (p : α × ℚ) : List (α × ℚ) → List (α × ℚ)
  | [] => [p]
  | q :: qs => if q.2 ≤ p.2 then q :: insertByKey p qs else p :: q :: qs

/-- Stable ascending sort by key, modelling lodash sortBy. -/
def sortByKey {α : Type} : List (α × ℚ) → List (α × ℚ)
  | [] => []
  | p :: ps => insertByKey p (sortByKey ps)

/-- Key draws of Randomizer.weightedShuffle: one next draw per item, in
item order, each scaled by the weight of the item or by the average
weight when the item has none. -/
def drawKeys (weights : List (String × ℚ)) (average : ℚ) :
    List String → Rand → List (String × ℚ) × Rand
  | [], r => ([], r)
  | it :: its, r =>
    let w := ((weights.find? (fun p => p.1 = it)).map Prod.snd).getD average
    let key := -(r.nextQ.1) * w
    let rest := drawKeys weights average its r.advance
    ((it, key) :: rest.1, rest.2)

/-- Weighted shuffle, as in Randomizer.weightedShuffle: sort the items by
ascending value of the negated draw times weight. -/
def weightedShuffle (items : List String) (weights : List (String × ℚ))
    (r : Rand) : List String × Rand :=
  let values := weights.map Prod.snd
  let average := values.sum / (values.length : ℚ)
  let keyed := drawKeys weights average items r
  ((sortByKey keyed.1).map Prod.fst, keyed.2)

/-- Weight map of the enabled colours, keyed in colour-model order, as
built by the TileGenerator constructor. -/
def colourWeights (m : Model) : List (String × ℚ) :=
  (m.colourModel.filter (fun c => c.enabled)).map (fun c => (c.name, (c.weight : ℚ)))

/-- Names of the enabled favourite colours, in colour-model order. -/
def favourites (m : Model) : List String :=
  ((m.colourModel.filter (fun c => c.enabled)).filter (fun c => c.favourite)).map
    (fun c => c.name)

/-- Base colour supplier of RowGenerator: shuffle the favourites, shuffle
the remaining enabled colours, concatenate and truncate to the group
size. -/
def baseColourSupplier (m : Model) (r : Rand) : List String × Rand :=
  let colours := ((colourWeights m).map Prod.fst).filter
    (fun n => ¬ (favourites m).contains n)
  let p1 := shuffle (favourites m) r
  let p2 := shuffle colours p1.2
  ((p1.1 ++ p2.1).take m.groupSize, p2.2)

/-- Colour supplier of RowGenerator: when complexity is positive, draw a
duplicate count, weighted-shuffle the base palette and append that many
entries from the front of the weighted ordering. -/
def colourSupplier (m : Model) (r : Rand) : List String × Rand :=
  if 0 < m.complexity then
    let p := baseColourSupplier m r
    let d := p.2.nextInt
    let dupeCount := (d.1 % m.complexity) % m.groupSize
    let q := weightedShuffle p.1 (colourWeights m) d.2
    (p.1 ++ q.1.take dupeCount, q.2)
  else baseColourSupplier m r

/-- Mutable closure state of the colour dispenser generator. -/
structure DispState where
  group : List String
  lastColour : Option String
  rand : Rand

/-- One pull from the colour dispenser at emission index i: refill the
group with a fresh shuffle when i is a multiple of the colour count,
swapping the first colour to the back when it equals the last emission of
the previous group, then emit the front of the group.  The source asserts
that the emitted colour exists; the model emits the default string on an
empty group, a path the claims never take because their colour lists are
non-empty. -/
def dispStep (colours : List String) (i : Nat) (s : DispState) : String × DispState :=
  let s1 : DispState :=
    if i % colours.length = 0 then
      let sh := shuffle colours s.rand
      let g := if sh.1.head? = s.lastColour then sh.1.tail ++ sh.1.take 1 else sh.1
      ⟨g, s.lastColour, sh.2⟩
    else s
  let c := s1.group.headI
  (c, ⟨s1.group.tail, some c, s1.rand⟩)

/-- Dispenser state after i pulls starting from a fresh dispenser. -/
def dispStateAt (colours : List String) (r : Rand) : Nat → DispState
  | 0 => ⟨[], none, r⟩
  | i + 1 => (dispStep colours i (dispStateAt colours r i)).2

/-- Colour emitted by the dispenser at emission index i. -/
def em (colours : List String) (r : Rand) (i : Nat) : String :=
  (dispStep colours i (dispStateAt colours r i)).1

/-- List of the next n emissions starting at emission index i. -/
def dispenseFrom (colours : List String) : Nat → Nat → DispState → List String × DispState
  | _, 0, s => ([], s)
  | i, n + 1, s =>
    let p := dispStep colours i s
    let q := dispenseFrom colours (i + 1) n p.2
    (p.1 :: q.1, q.2)

/-- Right rotation by places, as in rotate: the last places elements move
to the front, preserving relative order.  The source splices with a
non-negative start index because rotation is always less than the row
length; the model shares that precondition through truncated
subtraction. -/
def rotate {α : Type} (items : List α) (places : Nat) : List α :=
  if places = 0 then items
  else items.drop (items.length - places) ++ items.take (items.length - places)

/-- Tile construction loop of RowGenerator.generateRow: position counter
i assigns the column key ((i + rotation) mod columnCount) + 1. -/
def buildTiles (m : Model) (rowKey : Nat) : Nat → List String → List Tile
  | _, [] => []
  | i, c :: cs =>
    ⟨((i + m.rotation) % m.columnCount) + 1, rowKey, c⟩ :: buildTiles m rowKey (i + 1) cs

/-- Colours pulled for one row together with the final dispenser state.
The for-of loop of the source pulls columnCount + 1 emissions: the break
happens only after one extra colour has been produced and discarded, so
the randomizer state observed by later rows includes any group refill
that extra pull triggered. -/
def rowDispense (m : Model) (r : Rand) : List String × DispState :=
  let p := colourSupplier m r
  dispenseFrom p.1 0 (m.columnCount + 1) ⟨[], none, p.2⟩

/-- Tiles of one row before the final rotation, in dispense order. -/
def generateRowPre (m : Model) (rowKey : Nat) (r : Rand) : List Tile :=
  buildTiles m rowKey 0 ((rowDispense m r).1.take m.columnCount)

/-- One generated row, as in RowGenerator.generateRow, together with the
randomizer state left for the next row. -/
def generateRow (m : Model) (rowKey : Nat) (r : Rand) : TileRow × Rand :=
  (⟨rowKey, rotate (generateRowPre m rowKey r) m.rotation⟩, (rowDispense m r).2.rand)

/-- Loop of RowGenerator.generateRows: rows are generated for keys n down
to 1, threading the randomizer. -/
def genRowsAux (m : Model) : Nat → Rand → List TileRow
  | 0, _ => []
  | n + 1, r =>
    let p := generateRow m (n + 1) r
    p.1 :: genRowsAux m n p.2

/-- Full pattern generation, as in TileGenerator.generate and the
top-level generateRows: a fresh Randomizer is built from the seed, rows
are generated from the bottom key downward and each is prepended, so the
result reads top to bottom.  The streamOf argument is the seedrandom
algorithm mapping a seed to its draw stream. -/
def generateRows (streamOf : String → Nat → Nat) (m : Model) : List TileRow :=
  (genRowsAux m m.rowCount ⟨streamOf m.seed, 0⟩).reverse

/-- Content of a tile that is independent of the row number: column key
and colour. -/
def tileData (t : Tile) : Nat × String := (t.key, t.colour)

/-- Content of a row that is independent of the row number. -/
def rowData (row : TileRow) : List (Nat × String) := row.columns.map tileData

/-- Copy of a model with a different row count. -/
def setRowCount (m : Model) (n : Nat) : Model := { m with rowCount := n }

/-- Copy of a model with a different offset. -/
def setOffset (m : Model) (o : Nat) : Model := { m with offset := o }

/-- Modelled from the spec: a region normalized by min and max so that
the start coordinates do not exceed the end coordinates. -/
def normalizeRegion (reg : Region) : Region :=
  ⟨min reg.startRow reg.endRow, min reg.startColumn reg.endColumn,
   max reg.startRow reg.endRow, max reg.startColumn reg.endColumn⟩

/-- Direction factor named by a step direction: stepping right moves the
shifted row or column toward smaller coordinates, stepping left toward
larger ones.  This is the mapping the source itself applies in its only
branch that distinguishes the two directions. -/
def dirOf : StepDir → ℚ
  | StepDir.right => -1
  | StepDir.left => 1

/-- Aspect-scaled basis factor of the offset step, as computed by the
amount local of locateCell. -/
def stepAmount (bf : ℚ) (m : Model) : ℚ :=
  if m.orientation = Orient.vertical then
    (if 0 < m.aspectRatio then 1 else -(m.aspectRatio : ℚ) * bf)
  else
    (if 0 < m.aspectRatio then (m.aspectRatio : ℚ) * bf else 1)

/-- Offset-step displacement as the code actually computes it, written in
the corrected language of claim C3: with offset at most 2 the direction
is always the negative one regardless of stepDirection; otherwise the
direction follows stepDirection, and the modular ramp is displaced by
offset minus 1 when stepping left. -/
def ampShift (bf mag : ℚ) (m : Model) (index : ℤ) : ℚ :=
  let b := basisPx mag
  let a := stepAmount bf m
  let o : ℚ := (m.offset : ℚ)
  if m.offset ≤ 2 ∨ m.stepAlternate then
    (if index % 2 = 1 then
      (if m.offset ≤ 2 then -1 else dirOf m.stepDirection) * b * a / o
    else 0)
  else
    dirOf m.stepDirection * b * a *
      ((index % (m.offset : ℤ) -
        (if m.stepDirection = StepDir.left then (m.offset : ℤ) - 1 else 0) : ℤ) : ℚ) / o

/-- Offset-step displacement as claim C3 states it: the direction always
follows stepDirection, and the modular ramp is displaced by offset minus
1 when stepping right. -/
def claimShiftC3 (bf mag : ℚ) (m : Model) (index : ℤ) : ℚ :=
  let b := basisPx mag
  let a := stepAmount bf m
  let o : ℚ := (m.offset : ℚ)
  if m.offset ≤ 2 ∨ m.stepAlternate then
    (if index % 2 = 1 then dirOf m.stepDirection * b * a / o else 0)
  else
    dirOf m.stepDirection * b * a *
      ((index % (m.offset : ℤ) -
        (if m.stepDirection = StepDir.right then (m.offset : ℤ) - 1 else 0) : ℤ) : ℚ) / o

/-- Displacement plus origin clip applied to the base rectangle of a
cell, on the axis selected by the orientation. -/
def stepApply (bf mag : ℚ) (m : Model) (row column : ℤ) (inside : Bool)
    (base : TileRect) : TileRect :=
  if m.orientation = Orient.horizontal then
    let xs := base.x + ampShift bf mag m (row - 1)
    if xs < groutPx then
      ⟨if inside then groutPx else 0, base.y,
       base.width - (if inside then groutPx - xs else -xs), base.height⟩
    else ⟨xs, base.y, base.width, base.height⟩
  else
    let ys := base.y + ampShift bf mag m (column - 1)
    if ys < groutPx then
      ⟨base.x, if inside then groutPx else 0, base.width,
       base.height - (if inside then groutPx - ys else -ys)⟩
    else ⟨base.x, ys, base.width, base.height⟩

/-- Concrete model for claim C1: no offset stepping, one hole covering
rows 2 to 3 and columns 5 to 7. -/
def mC1 : Model :=
  ⟨"s", Orient.horizontal, 8, 8, 0, 1, 1, StepDir.right, false, 1, 0,
   [⟨2, 5, 3, 7⟩], "", []⟩

/-- Concrete model for claim C3 stepping left with offset 2. -/
def mC3L : Model :=
  ⟨"s", Orient.horizontal, 8, 8, 0, 1, 2, StepDir.left, false, 1, 0, [], "", []⟩

/-- Concrete model for claim C3 stepping right with offset 2. -/
def mC3R : Model := { mC3L with stepDirection := StepDir.right }

/-- Concrete model for claim C8 with offset stepping enabled. -/
def mC8 : Model :=
  ⟨"s", Orient.horizontal, 8, 8, 0, 1, 2, StepDir.right, false, 1, 0, [], "", []⟩

/-- Concrete draw stream for the claim C4 counterexample. -/
def rC4 : Rand := ⟨fun i => List.getD [2, 0, 0, 0] i 0, 0⟩

/-- Concrete single-colour palette entry used by small witness models. -/
def specA : ColourSpec := ⟨"A", "#1", "A", true, 1, false⟩

/-- Concrete second palette entry used by small witness models. -/
def specB : ColourSpec := ⟨"B", "#2", "B", true, 1, false⟩

/-- Concrete one-colour model for claims C2 and C6. -/
def mC2 : Model :=
  ⟨"s", Orient.horizontal, 1, 1, 0, 1, 1, StepDir.right, false, 1, 0, [], "", [specA]⟩

/-- Concrete constant stream algorithm for claims C2 and C6. -/
def stC2 : String → Nat → Nat := fun _ _ => 0

/-- Concrete two-colour model for claim C10, before choosing the
complexity. -/
def mC10 : Model :=
  ⟨"s", Orient.horizontal, 1, 1, 0, 1, 1, StepDir.right, false, 2, 0, [], "", [specA, specB]⟩

/-- Concrete identity stream algorithm for claim C10. -/
def stC10 : String → Nat → Nat := fun _ i => i

/-- Concrete model for the claim C5 witness: rotation 5 with 10 columns,
matching the rotation scenario of the spec. -/
def mC5 : Model :=
  ⟨"s", Orient.horizontal, 1, 10, 0, 1, 1, StepDir.right, false, 1, 5, [], "", [specA]⟩

/-- Concrete randomizer used by generator witnesses. -/
def rZero : Rand := ⟨fun _ => 0, 0⟩

/-- C7: for every layout and every pair of grid cells A and B, locating
the area from A to B yields exactly the union of the rectangle located
for A alone and the rectangle located for B alone. -/
theorem c7_locate_union (bf mag : ℚ) (m : Model) (r1 c1 r2 c2 : ℤ) (inside : Bool) :
    locate bf mag m r1 c1 r2 c2 inside =
      (locate bf mag m r1 c1 r1 c1 inside).union (locate bf mag m r2 c2 r2 c2 inside) := by
  simp only [locate, TileRect.union, TileRect.left, TileRect.top, TileRect.right,
    TileRect.bottom, min_self, max_self, add_sub_cancel_left]

/-- C6: the pattern generator is deterministic: two generation calls on
identical parameter records, under the fixed seed-to-stream algorithm of
the PRNG, produce identical TileRow sequences. -/
theorem c6_deterministic (streamOf : String → Nat → Nat) (m1 m2 : Model)
    (h : m1 = m2) : generateRows streamOf m1 = generateRows streamOf m2 := by
  rw [h]

/-- Witness for C6 at a concrete model and stream. -/
theorem c6_witness : generateRows stC2 mC2 = generateRows stC2 mC2 :=
  c6_deterministic stC2 mC2 mC2 rfl

set_option maxHeartbeats 1600000 in
/-- C1, failing input: with no canvas crop and a hole covering rows 2 to
3, columns 5 to 7 (located rectangle x 74, y 20, width 52, height 34),
the tile rectangle at (92, 20) of size 16 by 16 lies fully inside the
hole, yet intersectWithHoles returns the tile unchanged instead of the
null the spec requires: the forEach callback of the source returns early
on a null intersection without recording it. -/
theorem c1_hole_subtraction_bug :
    locateHole 1 100 mC1 ⟨2, 5, 3, 7⟩ = ⟨74, 20, 52, 34⟩ ∧
    (74 : ℚ) ≤ 92 ∧ (92 : ℚ) + 16 ≤ 74 + 52 ∧
    (20 : ℚ) ≤ 20 ∧ (20 : ℚ) + 16 ≤ 20 + 34 ∧
    intersectWithHoles 1 100 mC1 [] ⟨92, 20, 16, 16⟩ = some ⟨92, 20, 16, 16⟩ := by
  have hhole : locateHole 1 100 mC1 ⟨2, 5, 3, 7⟩ = ⟨74, 20, 52, 34⟩ := by
    norm_num [locateHole, locate, locateCell, cellSize, measure, basisPx, groutPx,
      mC1, TileRect.union, TileRect.left, TileRect.top, TileRect.right,
      TileRect.bottom, min_def, max_def]
  refine ⟨hhole, by norm_num, by norm_num, by norm_num, by norm_num, ?_⟩
  norm_num [intersectWithHoles, canvasCrop, mC1, hhole, TileRect.intersect,
    TileRect.contains, TileRect.leftMiddle, TileRect.topMiddle,
    TileRect.rightMiddle, TileRect.bottomMiddle, TileRect.left, TileRect.top,
    TileRect.right, TileRect.bottom, min_def, max_def, locateHole, locate,
    locateCell, cellSize, measure, basisPx, groutPx, TileRect.union]

/-- Counterexample to C2 as stated: growing the row count from 1 to 2
with identical seed and parameters keeps the colours of the bottom row
but renumbers its row key from 1 to 2, so the bottom rows do not carry
the same row keys. -/
theorem c2_counterexample :
    ((generateRows stC2 (setRowCount mC2 2)).drop 1).map rowData
      = (generateRows stC2 (setRowCount mC2 1)).map rowData ∧
    ((generateRows stC2 (setRowCount mC2 2)).drop 1).map TileRow.key
      ≠ (generateRows stC2 (setRowCount mC2 1)).map TileRow.key := by
  decide

/-- Counterexample to C3 as stated: with offset 2 the code shifts odd
rows the same way for both step directions, so the shift cannot be in
the direction configured by stepDirection; at basis factor 1 and
magnification 100 the claimed position for the left-stepping model is
off by 16. -/
theorem c3_counterexample :
    claimShiftC3 1 100 mC3L 1 ≠ claimShiftC3 1 100 mC3R 1 ∧
    locateCell 1 100 mC3L 2 2 true = locateCell 1 100 mC3R 2 2 true ∧
    (locateCell 1 100 mC3L 2 2 true).x ≠
      (locateCell 1 100 (setOffset mC3L 1) 2 2 true).x + claimShiftC3 1 100 mC3L 1 := by
  norm_num [claimShiftC3, dirOf, stepAmount, locateCell, cellSize, measure, basisPx,
    groutPx, mC3L, mC3R, setOffset]

/-- C3 amended: for every parameters record with offset greater than 1,
locateCell equals the unstepped cell rectangle displaced by the
documented shift and clipped at the origin, where the shift is: with
offset at most 2 or stepAlternate set, odd-indexed rows or columns move
by 1 over offset of the aspect-scaled basis, in the stepDirection
direction only when offset exceeds 2 and always in the negative (right)
direction when offset is at most 2; otherwise a modular ramp of index
mod offset, displaced by offset minus 1 when stepping left, signed by
the stepDirection direction. -/
theorem c3_offset_step (bf mag : ℚ) (m : Model) (row column : ℤ) (inside : Bool)
    (h : 1 < m.offset) :
    locateCell bf mag m row column inside =
      stepApply bf mag m row column inside
        (locateCell bf mag (setOffset m 1) row column inside) := by
  cases horient : m.orientation <;> cases hsd : m.stepDirection <;>
    by_cases ho : m.offset ≤ 2 <;> by_cases halt : m.stepAlternate <;>
      simp [locateCell, stepApply, ampShift, stepAmount, dirOf, setOffset, cellSize,
        measure, h, horient, hsd, ho, halt]

/-- Witness for C3 at a concrete offset-2 model. -/
theorem c3_witness :
    locateCell 1 100 mC3R 2 2 true =
      stepApply 1 100 mC3R 2 2 true (locateCell 1 100 (setOffset mC3R 1) 2 2 true) :=
  c3_offset_step 1 100 mC3R 2 2 true (by decide)

/-- Counterexample to C4 as stated: a colour list with a duplicate but
two distinct members can emit the same colour on both sides of a group
seam, because the swap only moves the first element of the new group to
the back and a duplicate can sit right behind it. -/
theorem c4_counterexample :
    em ["A", "A", "B"] rC4 2 = em ["A", "A", "B"] rC4 3 ∧
    (2 + 1) % List.length ["A", "A", "B"] = 0 ∧
    ("A" : String) ≠ "B" ∧ "A" ∈ ["A", "A", "B"] ∧ "B" ∈ ["A", "A", "B"] := by
  decide

/-- Counterexample to C8 as stated: with offset stepping enabled, a
region whose end row precedes its start row locates a different
rectangle than its min-max normalization, because the two corner cells
carry different step shifts. -/
theorem c8_counterexample :
    normalizeRegion ⟨3, 1, 2, 2⟩ = (⟨2, 1, 3, 2⟩ : Region) ∧
    locateHole 1 100 mC8 ⟨3, 1, 2, 2⟩ ≠
      locateHole 1 100 mC8 (normalizeRegion ⟨3, 1, 2, 2⟩) := by
  norm_num [normalizeRegion, locateHole, locate, locateCell, cellSize, measure,
    basisPx, groutPx, mC8, TileRect.union, TileRect.left, TileRect.top,
    TileRect.right, TileRect.bottom, min_def, max_def,
    (by decide : Orient.horizontal ≠ Orient.vertical),
    (by decide : StepDir.right ≠ StepDir.left)]

/-- The interior cell width is non-negative for non-negative basis
factor and magnification, whichever sign the aspect ratio has. -/
lemma cellSize_width_nonneg (bf mag : ℚ) (m : Model) (hbf : 0 ≤ bf) (hmag : 0 ≤ mag) :
    0 ≤ (cellSize bf mag m).width := by
  have hb : (0 : ℚ) ≤ basisPx mag := by rw [basisPx]; positivity
  simp only [cellSize, measure, groutPx]
  norm_num
  split_ifs with ha
  · linarith
  · have ha2 : (0 : ℚ) ≤ (m.aspectRatio : ℚ) := by exact_mod_cast Int.not_lt.mp ha
    nlinarith [mul_nonneg (mul_nonneg hb ha2) hbf]

/-- The interior cell height is non-negative for non-negative basis
factor and magnification, whichever sign the aspect ratio has. -/
lemma cellSize_height_nonneg (bf mag : ℚ) (m : Model) (hbf : 0 ≤ bf) (hmag : 0 ≤ mag) :
    0 ≤ (cellSize bf mag m).height := by
  have hb : (0 : ℚ) ≤ basisPx mag := by rw [basisPx]; positivity
  simp only [cellSize, measure, groutPx]
  norm_num
  split_ifs with ha
  · linarith
  · have ha2 : ((m.aspectRatio : ℚ)) ≤ 0 := by exact_mod_cast Int.not_lt.mp ha
    nlinarith [mul_nonneg (mul_nonneg hb (neg_nonneg.mpr ha2)) hbf]

/-- With offset stepping disabled, a located cell is the plain separable
rectangle of its row and column. -/
lemma locateCell_no_offset (bf mag : ℚ) (m : Model) (r c : ℤ) (hoff : ¬ 1 < m.offset) :
    locateCell bf mag m r c true =
      ⟨((c : ℚ) - 1) * (cellSize bf mag m).width + (c : ℚ) * groutPx,
       ((r : ℚ) - 1) * (cellSize bf mag m).height + (r : ℚ) * groutPx,
       (cellSize bf mag m).width, (cellSize bf mag m).height⟩ := by
  simp [locateCell, hoff]

/-- Minimum of two separable cell coordinates is the coordinate of the
minimum index when the cell extent is non-negative. -/
lemma cellCoord_min (k a b : ℚ) (hk : 0 ≤ k) :
    min ((a - 1) * k + a * 2) ((b - 1) * k + b * 2) =
      (min a b - 1) * k + min a b * 2 := by
  rcases le_total a b with h | h
  · rw [min_eq_left h, min_eq_left (by nlinarith)]
  · rw [min_eq_right h, min_eq_right (by nlinarith)]

/-- Maximum of two separable cell coordinates is the coordinate of the
maximum index when the cell extent is non-negative. -/
lemma cellCoord_max (k a b : ℚ) (hk : 0 ≤ k) :
    max ((a - 1) * k + a * 2) ((b - 1) * k + b * 2) =
      (max a b - 1) * k + max a b * 2 := by
  rcases le_total a b with h | h
  · rw [max_eq_right h, max_eq_right (by nlinarith)]
  · rw [max_eq_left h, max_eq_left (by nlinarith)]

/-- C8 amended: the engine never raises on a malformed region and, when
offset stepping is disabled, it locates exactly the rectangle of the
min-max normalized region; with offset stepping enabled the located
rectangle is the union of the two corner cells, which can differ from
the normalized one. -/
theorem c8_normalized (bf mag : ℚ) (m : Model) (reg : Region)
    (hbf : 0 ≤ bf) (hmag : 0 ≤ mag) (hoff : m.offset ≤ 1) :
    locateHole bf mag m reg = locateHole bf mag m (normalizeRegion reg) := by
  have hno : ¬ 1 < m.offset := by omega
  have hw := cellSize_width_nonneg bf mag m hbf hmag
  have hh := cellSize_height_nonneg bf mag m hbf hmag
  rcases reg with ⟨sr, sc, er, ec⟩
  simp only [locateHole, locate, normalizeRegion,
    locateCell_no_offset bf mag m _ _ hno, TileRect.union, TileRect.left,
    TileRect.top, TileRect.right, TileRect.bottom, groutPx]
  push_cast
  simp only [max_add_add_right, cellCoord_min _ _ _ hw, cellCoord_min _ _ _ hh,
    cellCoord_max _ _ _ hw, cellCoord_max _ _ _ hh]
  simp only [min_eq_left min_le_max, max_eq_right min_le_max]

/-- Witness for C8 at a concrete model without offset stepping. -/
theorem c8_witness :
    locateHole 1 100 mC1 ⟨3, 1, 2, 2⟩ = locateHole 1 100 mC1 (normalizeRegion ⟨3, 1, 2, 2⟩) :=
  c8_normalized 1 100 mC1 ⟨3, 1, 2, 2⟩ (by norm_num) (by norm_num) (by decide)

/-- The shuffle loop returns a permutation of the accumulator followed
by the remaining supply. -/
lemma shuffleGo_perm {α : Type} :
    ∀ (fuel : Nat) (supply : List α) (r : Rand) (acc : List α),
      (shuffleGo fuel supply r acc).1.Perm (acc ++ supply) := by
  intro fuel
  induction fuel with
  | zero => intro supply r acc; exact List.Perm.refl _
  | succ n ih =>
    intro supply r acc
    rw [shuffleGo]
    by_cases h : 1 < supply.length
    · rw [dif_pos h]
      have hj : r.stream r.idx % supply.length < supply.length :=
        Nat.mod_lt _ (Nat.lt_of_lt_of_le Nat.zero_lt_one h.le)
      refine (ih _ _ _).trans ?_
      rw [List.append_assoc]
      refine List.Perm.append_left acc ?_
      rw [List.singleton_append, List.eraseIdx_eq_take_drop_succ]
      have hsup : supply.take (r.stream r.idx % supply.length) ++
          supply.get ⟨r.stream r.idx % supply.length, hj⟩ ::
            supply.drop (r.stream r.idx % supply.length + 1) = supply := by
        rw [List.get_eq_getElem, List.getElem_cons_drop, List.take_append_drop]
      conv_rhs => rw [← hsup]
      exact List.perm_middle.symm
    · rw [dif_neg h]

/-- The shuffle of the source is a permutation of its input. -/
lemma shuffle_perm {α : Type} (items : List α) (r : Rand) :
    (shuffle items r).1.Perm items := by
  rw [shuffle]
  by_cases h : items.isEmpty
  · rw [if_pos h]
  · rw [if_neg h]
    simpa using shuffleGo_perm items.length items r []

/-- The last colour recorded by the dispenser is always the previous
emission. -/
lemma dispStateAt_lastColour (colours : List String) (r : Rand) (i : Nat) :
    (dispStateAt colours r (i + 1)).lastColour = some (em colours r i) := rfl

/-- On an emission index at a group boundary the dispenser refills the
group from a fresh shuffle, swapping a repeated head to the back, and
emits the front of the refilled group. -/
lemma dispStep_refill_fst (colours : List String) (i : Nat) (s : DispState)
    (h : i % colours.length = 0) :
    (dispStep colours i s).1 =
      (if (shuffle colours s.rand).1.head? = s.lastColour then
          (shuffle colours s.rand).1.tail ++ (shuffle colours s.rand).1.take 1
        else (shuffle colours s.rand).1).headI := by
  simp only [dispStep, h, eq_self_iff_true, if_true]

/-- C4 amended: for a duplicate-free colour list with at least two
members, the colour emitted last in a dispensed group never equals the
colour emitted first in the following group; with duplicates in the list
the guarantee can fail, and with a single colour every seam repeats. -/
theorem c4_seam_distinct (colours : List String) (r : Rand) (i : Nat)
    (hnd : colours.Nodup) (h2 : 2 ≤ colours.length)
    (hseam : (i + 1) % colours.length = 0) :
    em colours r i ≠ em colours r (i + 1) := by
  have hlc : (dispStateAt colours r (i + 1)).lastColour = some (em colours r i) :=
    dispStateAt_lastColour colours r i
  have hem : em colours r (i + 1) =
      (if (shuffle colours (dispStateAt colours r (i + 1)).rand).1.head? =
          (dispStateAt colours r (i + 1)).lastColour then
        (shuffle colours (dispStateAt colours r (i + 1)).rand).1.tail ++
          (shuffle colours (dispStateAt colours r (i + 1)).rand).1.take 1
      else (shuffle colours (dispStateAt colours r (i + 1)).rand).1).headI :=
    dispStep_refill_fst colours (i + 1) (dispStateAt colours r (i + 1)) hseam
  set s := dispStateAt colours r (i + 1) with hs
  intro heq
  rw [hem, hlc] at heq
  have hperm : (shuffle colours s.rand).1.Perm colours := shuffle_perm colours s.rand
  have hlen : (shuffle colours s.rand).1.length = colours.length := hperm.length_eq
  have hndG : (shuffle colours s.rand).1.Nodup := hperm.symm.nodup hnd
  rcases hG : (shuffle colours s.rand).1 with _ | ⟨a, _ | ⟨b, rest⟩⟩
  · rw [hG] at hlen; simp at hlen; omega
  · rw [hG] at hlen; simp at hlen; omega
  · rw [hG] at heq hndG
    by_cases hh : (a :: b :: rest).head? = some (em colours r i)
    · rw [if_pos hh] at heq
      simp only [List.head?_cons, Option.some.injEq] at hh
      simp only [List.cons_append, List.tail_cons, List.headI] at heq
      simp only [List.nodup_cons, List.mem_cons] at hndG
      exact hndG.1 (Or.inl (hh.trans heq))
    · rw [if_neg hh] at heq
      simp only [List.head?_cons, Option.some.injEq] at hh
      simp only [List.headI] at heq
      exact hh heq.symm

/-- Witness for C4 at a concrete duplicate-free colour list. -/
theorem c4_witness : em ["A", "B", "C"] rZero 2 ≠ em ["A", "B", "C"] rZero 3 :=
  c4_seam_distinct ["A", "B", "C"] rZero 2 (by decide) (by decide) (by decide)

/-- The dispenser produces exactly the requested number of colours. -/
lemma dispenseFrom_length (colours : List String) :
    ∀ (n i : Nat) (s : DispState), (dispenseFrom colours i n s).1.length = n := by
  intro n
  induction n with
  | zero => intro i s; rfl
  | succ n ih =>
    intro i s
    simp only [dispenseFrom, List.length_cons, ih]

/-- The tile construction loop yields one tile per colour. -/
lemma buildTiles_length (m : Model) (k : Nat) :
    ∀ (cs : List String) (i : Nat), (buildTiles m k i cs).length = cs.length := by
  intro cs
  induction cs with
  | nil => intro i; rfl
  | cons c cs ih => intro i; simp only [buildTiles, List.length_cons, ih]

/-- The tile at loop position p of the construction loop started at
counter i carries the column key of dispensed position i + p. -/
lemma buildTiles_get_key (m : Model) (k : Nat) :
    ∀ (cs : List String) (i p : Nat) (h : p < (buildTiles m k i cs).length),
      ((buildTiles m k i cs).get ⟨p, h⟩).key =
        ((i + p + m.rotation) % m.columnCount) + 1 := by
  intro cs
  induction cs with
  | nil => intro i p h; simp [buildTiles] at h
  | cons c cs ih =>
    intro i p h
    cases p with
    | zero => rfl
    | succ p =>
      have := ih (i + 1) p (by simpa [buildTiles] using Nat.lt_of_succ_lt_succ h)
      simp only [buildTiles, List.get_cons_succ] at this ⊢
      rw [this]
      congr 2
      omega

/-- Every tile built by the loop carries the given row number and a
column key of the modular form of the claim. -/
lemma buildTiles_mem (m : Model) (k : Nat) :
    ∀ (cs : List String) (i : Nat), ∀ t ∈ buildTiles m k i cs,
      t.row = k ∧ ∃ j, t.key = ((j + m.rotation) % m.columnCount) + 1 := by
  intro cs
  induction cs with
  | nil => intro i t ht; simp [buildTiles] at ht
  | cons c cs ih =>
    intro i t ht
    rcases List.mem_cons.mp ht with h | h
    · subst h
      exact ⟨rfl, i, rfl⟩
    · exact ih (i + 1) t h

/-- Rotation preserves the length of a list. -/
lemma rotate_length {α : Type} (l : List α) (p : Nat) :
    (rotate l p).length = l.length := by
  rw [rotate]
  split_ifs with h
  · rfl
  · simp only [List.length_append, List.length_drop, List.length_take]
    omega

/-- Rotation permutes the list. -/
lemma rotate_perm {α : Type} (l : List α) (p : Nat) : (rotate l p).Perm l := by
  rw [rotate]
  split_ifs with h
  · exact List.Perm.refl _
  · exact List.perm_append_comm.trans (by rw [List.take_append_drop])

/-- Rotation commutes with mapping. -/
lemma rotate_map {α β : Type} (f : α → β) (l : List α) (p : Nat) :
    (rotate l p).map f = rotate (l.map f) p := by
  rw [rotate, rotate]
  split_ifs with h
  · rfl
  · simp only [List.map_append, List.map_drop, List.map_take, List.length_map]

/-- The element at dispensed position i of a row ends at physical index
(i + places) mod length after the right rotation. -/
lemma rotate_getElem {α : Type} (l : List α) (p i : Nat)
    (hp : p ≤ l.length) (hi : i < l.length) :
    (rotate l p)[(i + p) % l.length]? = l[i]? := by
  rw [rotate]
  split_ifs with h
  · subst h
    rw [Nat.add_zero, Nat.mod_eq_of_lt hi]
  · by_cases hcase : i < l.length - p
    · have h1 : (i + p) % l.length = i + p := Nat.mod_eq_of_lt (by omega)
      rw [h1, List.getElem?_append_right (by simp [List.length_drop]; omega)]
      simp only [List.length_drop]
      rw [List.getElem?_take]
      rw [if_pos (by omega)]
      congr 1
      omega
    · have h1 : (i + p) % l.length = i + p - l.length := by
        have : i + p - l.length < l.length := by omega
        conv_lhs => rw [show i + p = (i + p - l.length) + l.length from by omega]
        rw [Nat.add_mod_right, Nat.mod_eq_of_lt this]
      rw [h1, List.getElem?_append_left (by simp [List.length_drop]; omega)]
      rw [List.getElem?_drop]
      congr 1
      omega

/-- The pre-rotation row has exactly columnCount tiles. -/
lemma generateRowPre_length (m : Model) (rowKey : Nat) (r : Rand) :
    (generateRowPre m rowKey r).length = m.columnCount := by
  rw [generateRowPre, buildTiles_length, List.length_take]
  simp only [rowDispense]
  rw [dispenseFrom_length]
  omega

/-- C5: the tile at dispensed position i of a generated row is assigned
column key ((i + rotation) mod columnCount) + 1, the completed row is
the right rotation of the dispensed sequence by rotation places, and the
tile dispensed at position i ends at physical index
(i + rotation) mod columnCount of the rotated row. -/
theorem c5_row_keys_rotation (m : Model) (rowKey : Nat) (r : Rand)
    (hrot : m.rotation < m.columnCount) :
    (generateRow m rowKey r).1.columns = rotate (generateRowPre m rowKey r) m.rotation ∧
    (generateRowPre m rowKey r).length = m.columnCount ∧
    (∀ (i : Nat) (h : i < (generateRowPre m rowKey r).length),
      ((generateRowPre m rowKey r).get ⟨i, h⟩).key =
        ((i + m.rotation) % m.columnCount) + 1) ∧
    (∀ i : Nat, i < m.columnCount →
      (generateRow m rowKey r).1.columns[(i + m.rotation) % m.columnCount]? =
        (generateRowPre m rowKey r)[i]?) := by
  refine ⟨rfl, generateRowPre_length m rowKey r, ?_, ?_⟩
  · intro i h
    have heq := buildTiles_get_key m rowKey
      ((rowDispense m r).1.take m.columnCount) 0 i h
    rw [show (0 + i + m.rotation) % m.columnCount
        = (i + m.rotation) % m.columnCount from by rw [Nat.zero_add]] at heq
    exact heq
  · intro i hi
    have hlen := generateRowPre_length m rowKey r
    show (rotate (generateRowPre m rowKey r) m.rotation)[(i + m.rotation) % m.columnCount]? =
      (generateRowPre m rowKey r)[i]?
    rw [← hlen]
    exact rotate_getElem _ _ _ (by omega) (by omega)

/-- Witness for C5 at the rotation scenario of the spec: rotation 5 with
10 columns; the first dispensed tile bears column key 6 and the rotated
row places dispensed position 0 at physical index 5. -/
theorem c5_witness :
    ((generateRowPre mC5 1 rZero).get
        ⟨0, (by decide : 0 < (generateRowPre mC5 1 rZero).length)⟩).key = 6 ∧
    (generateRow mC5 1 rZero).1.columns[(0 + mC5.rotation) % mC5.columnCount]? =
      (generateRowPre mC5 1 rZero)[0]? := by
  have h := c5_row_keys_rotation mC5 1 rZero (by decide)
  exact ⟨by simpa [mC5] using h.2.2.1 0 (by decide), h.2.2.2 0 (by decide)⟩

/-- Every generated row has exactly columnCount tiles. -/
lemma generateRow_columns_length (m : Model) (k : Nat) (r : Rand) :
    (generateRow m k r).1.columns.length = m.columnCount := by
  show (rotate (generateRowPre m k r) m.rotation).length = m.columnCount
  rw [rotate_length, generateRowPre_length]

/-- Every tile of a generated row carries the row number of the call and
a column key between 1 and columnCount. -/
lemma generateRow_tile_bounds (m : Model) (k : Nat) (r : Rand)
    (hcc : 0 < m.columnCount) :
    ∀ t ∈ (generateRow m k r).1.columns,
      t.row = k ∧ 1 ≤ t.key ∧ t.key ≤ m.columnCount := by
  intro t ht
  have hmem : t ∈ generateRowPre m k r :=
    ((rotate_perm (generateRowPre m k r) m.rotation).mem_iff).mp ht
  obtain ⟨hrow, j, hkey⟩ :=
    buildTiles_mem m k ((rowDispense m r).1.take m.columnCount) 0 t hmem
  have hlt := Nat.mod_lt (j + m.rotation) hcc
  rw [hkey]
  exact ⟨hrow, Nat.succ_le_succ (Nat.zero_le _), Nat.succ_le_of_lt hlt⟩

/-- The row loop yields one row per key counted down. -/
lemma genRowsAux_length (m : Model) :
    ∀ (n : Nat) (r : Rand), (genRowsAux m n r).length = n := by
  intro n
  induction n with
  | zero => intro r; rfl
  | succ n ih => intro r; simp only [genRowsAux, List.length_cons, ih]

/-- Every row produced by the row loop for keys n down to 1 has
columnCount tiles whose row numbers lie in 1 to n and whose keys lie in
1 to columnCount. -/
lemma genRowsAux_mem (m : Model) (hcc : 0 < m.columnCount) :
    ∀ (n : Nat) (r : Rand), ∀ row ∈ genRowsAux m n r,
      row.columns.length = m.columnCount ∧
        ∀ t ∈ row.columns, 1 ≤ t.row ∧ t.row ≤ n ∧ 1 ≤ t.key ∧ t.key ≤ m.columnCount := by
  intro n
  induction n with
  | zero => intro r row h; simp [genRowsAux] at h
  | succ n ih =>
    intro r row h
    simp only [genRowsAux] at h
    rcases List.mem_cons.mp h with h | h
    · subst h
      refine ⟨generateRow_columns_length m (n + 1) r, ?_⟩
      intro t ht
      obtain ⟨hrow, hk1, hk2⟩ := generateRow_tile_bounds m (n + 1) r hcc t ht
      omega
    · obtain ⟨hlen, hbounds⟩ := ih _ row h
      refine ⟨hlen, ?_⟩
      intro t ht
      obtain ⟨h1, h2, h3, h4⟩ := hbounds t ht
      omega

/-- C9: for rotation below columnCount the generated pattern has exactly
rowCount rows of exactly columnCount tiles each, with every tile row
number in 1 to rowCount and every column key in 1 to columnCount. -/
theorem c9_shape (streamOf : String → Nat → Nat) (m : Model)
    (hrot : m.rotation < m.columnCount) :
    (generateRows streamOf m).length = m.rowCount ∧
    ∀ row ∈ generateRows streamOf m,
      row.columns.length = m.columnCount ∧
        ∀ t ∈ row.columns,
          1 ≤ t.row ∧ t.row ≤ m.rowCount ∧ 1 ≤ t.key ∧ t.key ≤ m.columnCount := by
  have hcc : 0 < m.columnCount := Nat.lt_of_le_of_lt (Nat.zero_le _) hrot
  constructor
  · show (genRowsAux m m.rowCount ⟨streamOf m.seed, 0⟩).reverse.length = m.rowCount
    rw [List.length_reverse, genRowsAux_length]
  · intro row h
    have hmem : row ∈ genRowsAux m m.rowCount ⟨streamOf m.seed, 0⟩ :=
      List.mem_reverse.mp h
    obtain ⟨hlen, hbounds⟩ := genRowsAux_mem m hcc m.rowCount _ row hmem
    refine ⟨hlen, ?_⟩
    intro t ht
    exact hbounds t ht

/-- Witness for C9 at a concrete model with rotation 5 and 10 columns. -/
theorem c9_witness : (generateRows stC2 mC5).length = mC5.rowCount :=
  (c9_shape stC2 mC5 (by decide)).1

/-- The randomizer state left by a generated row does not depend on the
row key. -/
lemma generateRow_snd_key (m : Model) (k1 k2 : Nat) (r : Rand) :
    (generateRow m k1 r).2 = (generateRow m k2 r).2 := rfl

/-- The key and colour content of the construction loop does not depend
on the row key. -/
lemma buildTiles_map_tileData (m : Model) (k1 k2 : Nat) :
    ∀ (cs : List String) (i : Nat),
      (buildTiles m k1 i cs).map tileData = (buildTiles m k2 i cs).map tileData := by
  intro cs
  induction cs with
  | nil => intro i; rfl
  | cons c cs ih =>
    intro i
    simp only [buildTiles, List.map_cons, ih (i + 1)]
    rfl

/-- The key and colour content of a generated row does not depend on the
row key. -/
lemma generateRow_rowData (m : Model) (k1 k2 : Nat) (r : Rand) :
    rowData (generateRow m k1 r).1 = rowData (generateRow m k2 r).1 := by
  show (rotate (generateRowPre m k1 r) m.rotation).map tileData =
    (rotate (generateRowPre m k2 r) m.rotation).map tileData
  rw [rotate_map, rotate_map]
  congr 1
  exact buildTiles_map_tileData m k1 k2 ((rowDispense m r).1.take m.columnCount) 0

/-- The first N rows generated by a loop counting down from N + k carry
the same key and colour content as the rows of a loop counting down from
N, because the randomizer is threaded identically and the content
ignores the row key. -/
lemma genRowsAux_take_rowData (m : Model) (k : Nat) :
    ∀ (N : Nat) (r : Rand),
      ((genRowsAux m (N + k) r).take N).map rowData =
        (genRowsAux m N r).map rowData := by
  intro N
  induction N with
  | zero => intro r; rfl
  | succ N ih =>
    intro r
    rw [show N + 1 + k = (N + k) + 1 from by omega]
    simp only [genRowsAux, List.take_succ_cons, List.map_cons]
    congr 1
    · exact generateRow_rowData m (N + k + 1) (N + 1) r
    · exact ih ((generateRow m (N + 1) r).2)

/-- The first N rows generated by a loop counting down from N + k carry
the keys of the N-row loop shifted up by k. -/
lemma genRowsAux_take_key (m : Model) (k : Nat) :
    ∀ (N : Nat) (r : Rand),
      ((genRowsAux m (N + k) r).take N).map TileRow.key =
        (genRowsAux m N r).map (fun row => row.key + k) := by
  intro N
  induction N with
  | zero => intro r; rfl
  | succ N ih =>
    intro r
    rw [show N + 1 + k = (N + k) + 1 from by omega]
    simp only [genRowsAux, List.take_succ_cons, List.map_cons]
    congr 1
    · show N + k + 1 = N + 1 + k
      omega
    · exact ih ((generateRow m (N + 1) r).2)

/-- The tile construction loop ignores the rowCount field of the
model. -/
lemma buildTiles_setRowCount (m : Model) (X k : Nat) :
    ∀ (cs : List String) (i : Nat),
      buildTiles (setRowCount m X) k i cs = buildTiles m k i cs := by
  intro cs
  induction cs with
  | nil => intro i; rfl
  | cons c cs ih => intro i; simp only [buildTiles, ih (i + 1)]; rfl

/-- Row generation ignores the rowCount field of the model. -/
lemma generateRow_setRowCount (m : Model) (X j : Nat) (r : Rand) :
    generateRow (setRowCount m X) j r = generateRow m j r := by
  simp only [generateRow, generateRowPre]
  rw [buildTiles_setRowCount m X j]
  exact rfl

/-- The row loop ignores the rowCount field of the model. -/
lemma genRowsAux_setRowCount (m : Model) (X : Nat) :
    ∀ (n : Nat) (r : Rand), genRowsAux (setRowCount m X) n r = genRowsAux m n r := by
  intro n
  induction n with
  | zero => intro r; rfl
  | succ n ih =>
    intro r
    simp only [genRowsAux]
    rw [generateRow_setRowCount m X (n + 1) r, ih]

/-- C2 amended: growing the row count from N to N + k with the same seed
and parameters leaves the key and colour content of the bottom N rows of
the top-to-bottom output unchanged, while their row keys are the keys of
the N-row output shifted up by k (the row keys themselves are not
preserved). -/
theorem c2_bottom_rows_stable (streamOf : String → Nat → Nat) (m : Model)
    (N k : Nat) (hk : 0 < k) :
    (((generateRows streamOf (setRowCount m (N + k))).drop k).map rowData =
      (generateRows streamOf (setRowCount m N)).map rowData) ∧
    (((generateRows streamOf (setRowCount m (N + k))).drop k).map TileRow.key =
      (generateRows streamOf (setRowCount m N)).map (fun row => row.key + k)) := by
  have hgen : ∀ X, generateRows streamOf (setRowCount m X) =
      (genRowsAux m X ⟨streamOf m.seed, 0⟩).reverse := by
    intro X
    show (genRowsAux (setRowCount m X) (setRowCount m X).rowCount
      ⟨streamOf (setRowCount m X).seed, 0⟩).reverse = _
    rw [genRowsAux_setRowCount m X]
    rfl
  have hlen : (genRowsAux m (N + k) ⟨streamOf m.seed, 0⟩).length = N + k :=
    genRowsAux_length m (N + k) _
  have hrd : (genRowsAux m (N + k) ⟨streamOf m.seed, 0⟩).reverse.drop k =
      ((genRowsAux m (N + k) ⟨streamOf m.seed, 0⟩).take N).reverse := by
    rw [List.reverse_take, hlen, show N + k - N = k from by omega]
  constructor
  · rw [hgen (N + k), hgen N, hrd, List.map_reverse, List.map_reverse,
      genRowsAux_take_rowData]
  · rw [hgen (N + k), hgen N, hrd, List.map_reverse, List.map_reverse,
      genRowsAux_take_key]

/-- Witness for C2 at a concrete one-colour model, growing one row to
two rows. -/
theorem c2_witness :
    ((generateRows stC2 (setRowCount mC2 2)).drop 1).map rowData =
      (generateRows stC2 (setRowCount mC2 1)).map rowData :=
  (c2_bottom_rows_stable stC2 mC2 1 1 (by decide)).1

/-- C10: with complexity 1 the duplicate count is always zero, so the
palette of every row equals the base palette; nevertheless the
duplicate-count draw and the weighted-shuffle draws consume the seeded
stream, so for a concrete seed the generated pattern differs from the
one generated with complexity 0. -/
theorem c10_complexity_one :
    (∀ (m : Model) (r : Rand), m.complexity = 1 →
      (colourSupplier m r).1 = (baseColourSupplier m r).1) ∧
    generateRows stC10 { mC10 with complexity := 1 } ≠
      generateRows stC10 { mC10 with complexity := 0 } := by
  constructor
  · intro m r h
    simp [colourSupplier, h, Nat.mod_one]
  · decide

/-- Witness for C10 at a concrete model and randomizer. -/
theorem c10_witness :
    (colourSupplier { mC10 with complexity := 1 } rZero).1 =
      (baseColourSupplier { mC10 with complexity := 1 } rZero).1 :=
  c10_complexity_one.1 { mC10 with complexity := 1 } rZero rfl

end Backsplash
